import Mathlib

/-!
Verification of the signing / witness-construction core of a small Bitcoin
exercise repository (files `exercises/ex3_signatures/solution.py` and
`exercises/ex4_witness_data/solution.py`).

Modelling conventions:
* Python `bytes` values are `List Nat`, one entry per byte.
* Python integers are `Nat` (all quantities involved are non-negative).
* Exceptions are modelled with `Except` / `Option`; `Option.none` at the top
  level of `sign` denotes non-termination of the `while True:` loop (the body
  of that loop is deterministic and touches no state between iterations, so
  the loop either exits after its first iteration or never exits).
* The third-party `ecdsa` library is split in two parts:
  - its pure byte-level helpers (`ecdsa.der.encode_integer`,
    `encode_length`, `encode_sequence`, `read_length`, `remove_sequence`,
    `remove_integer`, and `ecdsa.util.sigencode_der` / `sigdecode_der`)
    are translated here function by function;
  - the elliptic-curve primitives (RFC 6979 deterministic nonce generation
    followed by raw ECDSA producing the pair `(r, s)`, and derivation of the
    affine public-key point), which the specification explicitly delegates to
    the curve library, are abstracted as the fields of `ECDSALib`.  Theorems
    take the library's documented guarantees (e.g. `r` and `s` reduced
    modulo the group order) as hypotheses.
* `SigningKey.from_string` validation (key length 32 and scalar in
  `[1, order-1]`, raising `MalformedPointError` otherwise) and the digest
  length check of `sign_digest` (raising `BadDigestError` for digests longer
  than the curve base length) are modelled by the `SignError` cases
  `invalidKey` and `badDigest`; `UnexpectedDER` from decoding is `derError`.
-/

namespace Secp

/-- The secp256k1 group order, `SECP256k1.order` in the `ecdsa` library. -/
def order : Nat :=
  0xFFFFFFFFFFFFFFFFFFFFFFFFFFFFFFFEBAAEDCE6AF48A03BBFD25E8CD0364141

/-- Big-endian interpretation of a byte string,
python's `string_to_number` / `int(hexlify(b), 16)`. -/
def bytesToNatBE (bs : List Nat) : Nat :=
  bs.foldl (fun acc b => 256 * acc + b) 0

/-- Fuel-driven helper for `bytesOf`; the fuel only forces termination and is
always sufficient (each step divides the argument by 256). -/
def bytesOfAux : Nat → Nat → List Nat
  | 0, _ => []
  | fuel + 1, n => if n < 256 then [n] else bytesOfAux fuel (n / 256) ++ [n % 256]

/-- The byte string that python's
`unhexlify(zero-padded-to-even-length hex of n)` produces: the shortest
big-endian encoding of `n`, with `[0]` for `0`. -/
def bytesOf (n : Nat) : List Nat :=
  bytesOfAux (n + 1) n

/-- `ecdsa.der.encode_length`. -/
def encode_length (l : Nat) : List Nat :=
  if l < 128 then [l]
  else
    let s := bytesOf l
    (128 ||| s.length) :: s

/-- `ecdsa.der.encode_integer`: DER INTEGER with tag `0x02`; a leading zero
byte is inserted when the top bit of the leading payload byte is set. -/
def encode_integer (r : Nat) : List Nat :=
  let s := bytesOf r
  if s.headD 0 ≤ 127 then 2 :: (encode_length s.length ++ s)
  else 2 :: (encode_length (s.length + 1) ++ 0 :: s)

/-- `ecdsa.der.encode_sequence`: DER SEQUENCE with tag `0x30`. -/
def encode_sequence (pieces : List (List Nat)) : List Nat :=
  48 :: (encode_length (pieces.map List.length).sum ++ pieces.flatten)

/-- `ecdsa.util.sigencode_der` (the `order` argument is unused there too). -/
def sigencode_der (r s _order : Nat) : List Nat :=
  encode_sequence [encode_integer r, encode_integer s]

/-- `ecdsa.der.read_length`: returns the decoded length together with the
number of bytes the length field occupies, or fails (`UnexpectedDER`). -/
def read_length : List Nat → Option (Nat × Nat)
  | [] => none
  | num :: tail =>
    if num &&& 128 = 0 then some (num &&& 127, 1)
    else
      let llen := num &&& 127
      if llen = 0 then none
      else if tail.length < llen then none
      else if tail.headD 0 = 0 ∨ (llen = 1 ∧ tail.headD 0 < 128) then none
      else some (bytesToNatBE (tail.take llen), 1 + llen)

/-- `ecdsa.der.remove_sequence`: strips a DER SEQUENCE header, returning the
sequence body and the remaining bytes. -/
def remove_sequence : List Nat → Option (List Nat × List Nat)
  | [] => none
  | t :: rest =>
    if t = 48 then
      match read_length rest with
      | none => none
      | some (len, llen) =>
        if rest.length - llen < len then none
        else some ((rest.drop llen).take len, (rest.drop llen).drop len)
    else none

/-- `ecdsa.der.remove_integer`: parses one DER INTEGER, rejecting negative
values and non-minimal (zero-padded) encodings. -/
def remove_integer : List Nat → Option (Nat × List Nat)
  | [] => none
  | t :: rest =>
    if t = 2 then
      match read_length rest with
      | none => none
      | some (len, llen) =>
        if rest.length - llen < len then none
        else if len = 0 then none
        else
          let numberbytes := (rest.drop llen).take len
          let msb := numberbytes.headD 0
          if msb &&& 128 ≠ 0 then none
          else if 1 < len ∧ msb = 0 ∧ (numberbytes.drop 1).headD 128 < 128 then none
          else some (bytesToNatBE numberbytes, (rest.drop llen).drop len)
    else none

/-- `ecdsa.util.sigdecode_der`: SEQUENCE of two INTEGERs, no trailing junk
at either level (the `order` argument is unused there too). -/
def sigdecode_der (sig_der : List Nat) (_order : Nat) : Option (Nat × Nat) :=
  match remove_sequence sig_der with
  | none => none
  | some (rs, rest1) =>
    if rest1 = [] then
      match remove_integer rs with
      | none => none
      | some (r, rest2) =>
        match remove_integer rest2 with
        | none => none
        | some (s, rest3) => if rest3 = [] then some (r, s) else none
    else none

/-- Fixed-width little-endian bytes, python's `value.to_bytes(len, little)`
after its `value < 256 ** len` overflow check has passed. -/
def toBytesLE : Nat → Nat → List Nat
  | _, 0 => []
  | v, len + 1 => v % 256 :: toBytesLE (v / 256) len

/-- Fixed-width big-endian bytes, python's `number_to_string` (used by the
compressed SEC1 point encoding, width 32 for secp256k1). -/
def toBytesBE (v len : Nat) : List Nat :=
  (toBytesLE v len).reverse

/-- Little-endian interpretation of a byte string. -/
def leToNat : List Nat → Nat
  | [] => 0
  | b :: rest => b + 256 * leToNat rest

/-- The elliptic-curve primitives the repository delegates to the `ecdsa`
library: `rawSign d digest` is the pair `(r, s)` produced by RFC 6979
deterministic nonce generation followed by raw ECDSA signing under the secret
scalar `d` (the library retries internally until `r ≠ 0` and `s ≠ 0` and
reduces both modulo `order`); `pubPoint d` is the affine point `d · G`. -/
structure ECDSALib where
  rawSign : Nat → List Nat → Nat × Nat
  pubPoint : Nat → Nat × Nat

/-- Failure cases surfaced by the modelled functions: `invalidKey` is the
library's `MalformedPointError` (spec: `InvalidKey`), `badDigest` its
`BadDigestError` for over-long digests, `derError` its `UnexpectedDER`. -/
inductive SignError where
  | invalidKey : SignError
  | badDigest : SignError
  | derError : SignError
  deriving DecidableEq

end Secp

namespace Secp.Ex3

/-- `int_to_little_endian` from `ex3_signatures/solution.py`
(`value.to_bytes(length, little)`; python raises `OverflowError` when
`value ≥ 256 ** length`, modelled as `none`). -/
def int_to_little_endian (value length : Nat) : Option (List Nat) :=
  if value < 256 ^ length then some (toBytesLE value length) else none

/-- One iteration of the `while True:` body of `sign` in
`ex3_signatures/solution.py`: digest-length check (from the library's
`sign_digest`), deterministic signing, DER decode, conditional low-S
negation and re-encode, sighash append.  Returns the produced blob together
with the value of the loop exit condition `s <= SECP256k1.order // 2`. -/
def signIter (lib : ECDSALib) (d : Nat) (commitment : List Nat) :
    Except SignError (List Nat × Bool) :=
  if 32 < commitment.length then Except.error SignError.badDigest
  else
    let rs := lib.rawSign d commitment
    let signature_der := sigencode_der rs.1 rs.2 order
    match sigdecode_der signature_der order with
    | none => Except.error SignError.derError
    | some (r, s) =>
      let s2 := if order / 2 < s then order - s else s
      let signature_der2 :=
        if order / 2 < s then sigencode_der r s2 order else signature_der
      Except.ok (signature_der2 ++ [1], decide (s2 ≤ order / 2))

/-- `sign` from `ex3_signatures/solution.py`.  Key validation is
`SigningKey.from_string` (length 32, scalar in `[1, order-1]`).  The
`while True:` loop's body is deterministic and shares no state between
iterations, so the loop exits on its first iteration or never; the latter
case is denoted by `none`. -/
def sign (lib : ECDSALib) (private_key commitment : List Nat) :
    Option (Except SignError (List Nat)) :=
  if private_key.length ≠ 32 then some (Except.error SignError.invalidKey)
  else
    let d := bytesToNatBE private_key
    if d = 0 ∨ order ≤ d then some (Except.error SignError.invalidKey)
    else
      match signIter lib d commitment with
      | Except.error e => some (Except.error e)
      | Except.ok (blob, done) => if done then some (Except.ok blob) else none

end Secp.Ex3

namespace Secp.Ex4

/-- `int_to_little_endian` from `ex4_witness_data/solution.py` (identical to
the ex3 copy). -/
def int_to_little_endian (value length : Nat) : Option (List Nat) :=
  if value < 256 ^ length then some (toBytesLE value length) else none

/-- One iteration of the `while True:` body of `sign` in
`ex4_witness_data/solution.py` (textually identical to the ex3 copy). -/
def signIter (lib : ECDSALib) (d : Nat) (commitment : List Nat) :
    Except SignError (List Nat × Bool) :=
  if 32 < commitment.length then Except.error SignError.badDigest
  else
    let rs := lib.rawSign d commitment
    let signature_der := sigencode_der rs.1 rs.2 order
    match sigdecode_der signature_der order with
    | none => Except.error SignError.derError
    | some (r, s) =>
      let s2 := if order / 2 < s then order - s else s
      let signature_der2 :=
        if order / 2 < s then sigencode_der r s2 order else signature_der
      Except.ok (signature_der2 ++ [1], decide (s2 ≤ order / 2))

/-- `sign` from `ex4_witness_data/solution.py` (textually identical to the
ex3 copy). -/
def sign (lib : ECDSALib) (private_key commitment : List Nat) :
    Option (Except SignError (List Nat)) :=
  if private_key.length ≠ 32 then some (Except.error SignError.invalidKey)
  else
    let d := bytesToNatBE private_key
    if d = 0 ∨ order ≤ d then some (Except.error SignError.invalidKey)
    else
      match signIter lib d commitment with
      | Except.error e => some (Except.error e)
      | Except.ok (blob, done) => if done then some (Except.ok blob) else none

/-- `get_pub_from_priv` from `ex4_witness_data/solution.py`:
`SigningKey.from_string` validation, then the compressed SEC1 encoding of
the verifying key: leading byte `0x03` when `y` is odd, `0x02` when even,
followed by the 32-byte big-endian `x` coordinate (`number_to_string`). -/
def get_pub_from_priv (lib : ECDSALib) (priv : List Nat) :
    Except SignError (List Nat) :=
  if priv.length ≠ 32 then Except.error SignError.invalidKey
  else
    let d := bytesToNatBE priv
    if d = 0 ∨ order ≤ d then Except.error SignError.invalidKey
    else
      let p := lib.pubPoint d
      if p.2 &&& 1 = 1 then Except.ok (3 :: toBytesBE p.1 32)
      else Except.ok (2 :: toBytesBE p.1 32)

/-- `get_p2wpkh_witness` from `ex4_witness_data/solution.py`:
`bytes([2]) + bytes([len(sig)]) + sig + bytes([len(pk)]) + pk`. -/
def get_p2wpkh_witness (lib : ECDSALib) (priv msg : List Nat) :
    Option (Except SignError (List Nat)) :=
  match sign lib priv msg with
  | none => none
  | some (Except.error e) => some (Except.error e)
  | some (Except.ok signature_with_sighash) =>
    match get_pub_from_priv lib priv with
    | Except.error e => some (Except.error e)
    | Except.ok compressed_public_key =>
      let num_witness_items := [2]
      let serialized_sig :=
        [signature_with_sighash.length] ++ signature_with_sighash
      let serialized_pk :=
        [compressed_public_key.length] ++ compressed_public_key
      some (Except.ok (num_witness_items ++ serialized_sig ++ serialized_pk))

end Secp.Ex4

namespace Secp

/-- The low-S normalisation value: the `s` the source keeps after its
conditional `s = SECP256k1.order - s` substitution. -/
def lowS (s : Nat) : Nat :=
  if order / 2 < s then order - s else s

/-- A conforming instance of the external curve library, used to exhibit
concrete runs: its raw signer returns the (valid, reduced) pair `(1, 1)` and
its public-key point is the secp256k1 generator. -/
def witLib : ECDSALib where
  rawSign := fun _ _ => (1, 1)
  pubPoint := fun _ =>
    (0x79BE667EF9DCBBAC55A06295CE870B07029BFCDB2DCE28D959F2815B16F81798,
     0x483ADA7726A3C4655DA4FBFC0E1108A8FD17B448A68554199C47D08FFB10D4B8)

/-- A 32-byte private key encoding the scalar 1. -/
def pk1 : List Nat := List.replicate 31 0 ++ [1]

/-- A 32-byte all-zero commitment. -/
def c32 : List Nat := List.replicate 32 0

/-- A 31-byte all-zero commitment (one byte short). -/
def c31 : List Nat := List.replicate 31 0

end Secp

namespace Secp

/-! ### Byte-string arithmetic lemmas -/

theorem bytesToNatBE_append_one (l : List Nat) (b : Nat) :
    bytesToNatBE (l ++ [b]) = 256 * bytesToNatBE l + b := by
  simp [bytesToNatBE, List.foldl_append]

theorem bytesToNatBE_cons_zero (l : List Nat) :
    bytesToNatBE (0 :: l) = bytesToNatBE l := by
  simp [bytesToNatBE]

theorem bytesOfAux_toNat :
    ∀ fuel n, n < fuel → bytesToNatBE (bytesOfAux fuel n) = n := by
  intro fuel
  induction fuel with
  | zero => intro n h; omega
  | succ f ih =>
    intro n h
    by_cases h256 : n < 256
    · simp [bytesOfAux, h256, bytesToNatBE]
    · have hdiv : n / 256 < f := by omega
      simp only [bytesOfAux, if_neg h256]
      rw [bytesToNatBE_append_one, ih _ hdiv]
      omega

theorem bytesOfAux_ne_nil :
    ∀ fuel n, n < fuel → bytesOfAux fuel n ≠ [] := by
  intro fuel
  induction fuel with
  | zero => intro n h; omega
  | succ f ih =>
    intro n h
    by_cases h256 : n < 256
    · simp [bytesOfAux, h256]
    · simp [bytesOfAux, h256]

theorem bytesOfAux_headD :
    ∀ fuel n, n < fuel → 0 < n → (bytesOfAux fuel n).headD 0 ≠ 0 := by
  intro fuel
  induction fuel with
  | zero => intro n h; omega
  | succ f ih =>
    intro n h hn
    by_cases h256 : n < 256
    · simp only [bytesOfAux, if_pos h256, List.headD]
      omega
    · have hdiv : n / 256 < f := by omega
      have hpos : 0 < n / 256 := by omega
      have hne := bytesOfAux_ne_nil f (n / 256) hdiv
      obtain ⟨a, t, he⟩ := List.exists_cons_of_ne_nil hne
      have hh := ih (n / 256) hdiv hpos
      rw [he] at hh
      simp only [bytesOfAux, if_neg h256, he, List.cons_append, List.headD]
      simpa using hh

theorem bytesOfAux_length :
    ∀ fuel n k, n < fuel → n < 256 ^ k → 0 < k →
      (bytesOfAux fuel n).length ≤ k := by
  intro fuel
  induction fuel with
  | zero => intro n k h; omega
  | succ f ih =>
    intro n k h hk hk0
    by_cases h256 : n < 256
    · simp only [bytesOfAux, if_pos h256, List.length_singleton]
      omega
    · obtain ⟨k', rfl⟩ : ∃ k', k = k' + 1 := ⟨k - 1, by omega⟩
      have hdiv : n / 256 < f := by omega
      have hk2 : n / 256 < 256 ^ k' := by
        rw [Nat.div_lt_iff_lt_mul (by omega)]
        calc n < 256 ^ (k' + 1) := hk
        _ = 256 ^ k' * 256 := by rw [pow_succ]
      have hk0' : 0 < k' := by
        by_contra hc
        have : k' = 0 := by omega
        subst this
        simp at hk
        omega
      have := ih (n / 256) k' hdiv hk2 hk0'
      simp only [bytesOfAux, if_neg h256, List.length_append,
        List.length_singleton]
      omega

theorem bytesToNatBE_bytesOf (n : Nat) : bytesToNatBE (bytesOf n) = n :=
  bytesOfAux_toNat (n + 1) n (Nat.lt_succ_self n)

theorem bytesOf_ne_nil (n : Nat) : bytesOf n ≠ [] :=
  bytesOfAux_ne_nil (n + 1) n (Nat.lt_succ_self n)

theorem bytesOf_headD (n : Nat) (h : 0 < n) : (bytesOf n).headD 0 ≠ 0 :=
  bytesOfAux_headD (n + 1) n (Nat.lt_succ_self n) h

theorem bytesOf_length (n k : Nat) (hk : n < 256 ^ k) (h0 : 0 < k) :
    (bytesOf n).length ≤ k :=
  bytesOfAux_length (n + 1) n k (Nat.lt_succ_self n) hk h0

theorem bytesOf_small (n : Nat) (h : n < 256) : bytesOf n = [n] := by
  simp [bytesOf, bytesOfAux, h]

theorem bytesOf_big (n : Nat) (h : 1 < (bytesOf n).length) : 256 ≤ n := by
  by_contra hc
  rw [bytesOf_small n (by omega)] at h
  simp at h

end Secp


namespace Secp

/-! ### DER encode/decode round-trip -/

theorem nat_and_small : ∀ l, l < 128 → l &&& 128 = 0 ∧ l &&& 127 = l := by
  decide

theorem headD_congr {α : Type} (l : List α) (a b : α) (h : l ≠ []) :
    l.headD a = l.headD b := by
  cases l with
  | nil => exact absurd rfl h
  | cons x t => rfl

theorem read_length_short (l : Nat) (h : l < 128) (rest : List Nat) :
    read_length (l :: rest) = some (l, 1) := by
  simp [read_length, (nat_and_small l h).1, (nat_and_small l h).2]

theorem encode_length_short (l : Nat) (h : l < 128) : encode_length l = [l] := by
  simp [encode_length, h]

theorem remove_integer_encode (n : Nat) (rest : List Nat)
    (hlen : (bytesOf n).length < 127) :
    remove_integer (encode_integer n ++ rest) = some (n, rest) := by
  by_cases hh : (bytesOf n).headD 0 ≤ 127
  · have he : encode_integer n =
        2 :: ((bytesOf n).length :: bytesOf n) := by
      simp only [encode_integer]
      rw [if_pos hh, encode_length_short (bytesOf n).length (by omega)]
      rfl
    rw [he]
    simp only [List.cons_append, remove_integer,
      read_length_short (bytesOf n).length (by omega)]
    simp only [if_true]
    have hb : ¬ ((bytesOf n).length :: (bytesOf n ++ rest)).length - 1 <
        (bytesOf n).length := by
      simp only [List.length_cons, List.length_append]
      omega
    rw [if_neg hb]
    have hz : ¬ (bytesOf n).length = 0 := by
      simpa [List.length_eq_zero] using bytesOf_ne_nil n
    rw [if_neg hz]
    simp only [List.drop_one, List.tail_cons, List.drop_succ_cons,
      List.drop_zero, List.take_left, List.drop_left]
    have h128 : (bytesOf n).headD 0 &&& 128 = 0 :=
      (nat_and_small ((bytesOf n).headD 0) (by omega)).1
    rw [if_neg (not_not_intro h128)]
    rw [if_neg ?pad]
    case pad =>
      rintro ⟨h1, h2, _⟩
      exact absurd h2 (bytesOf_headD n (by have := bytesOf_big n h1; omega))
    rw [bytesToNatBE_bytesOf]
  · have hh' : 128 ≤ (bytesOf n).headD 0 := by omega
    have he : encode_integer n =
        2 :: (((bytesOf n).length + 1) :: (0 :: bytesOf n)) := by
      simp only [encode_integer]
      rw [if_neg hh, encode_length_short ((bytesOf n).length + 1) (by omega)]
      rfl
    rw [he]
    simp only [List.cons_append, remove_integer,
      read_length_short ((bytesOf n).length + 1) (by omega)]
    simp only [if_true]
    have hb : ¬ (((bytesOf n).length + 1) ::
        (0 :: (bytesOf n ++ rest))).length - 1 < (bytesOf n).length + 1 := by
      simp only [List.length_cons, List.length_append]
      omega
    rw [if_neg hb]
    rw [if_neg (by omega)]
    simp only [List.drop_one, List.tail_cons, List.drop_succ_cons,
      List.drop_zero, List.take_succ_cons, List.take_left, List.drop_left,
      List.headD_cons]
    rw [if_neg (by simp)]
    rw [if_neg ?pad]
    case pad =>
      rintro ⟨_, _, h3⟩
      rw [headD_congr _ _ 0 (bytesOf_ne_nil n)] at h3
      omega
    rw [bytesToNatBE_cons_zero, bytesToNatBE_bytesOf]

theorem remove_sequence_short (body : List Nat) (h : body.length < 128) :
    remove_sequence (48 :: (body.length :: body)) = some (body, []) := by
  simp only [remove_sequence, read_length_short body.length h]
  simp only [if_true]
  have hb : ¬ (body.length :: body).length - 1 < body.length := by
    simp only [List.length_cons]
    omega
  rw [if_neg hb]
  simp [List.take_length, List.drop_length]

theorem sigencode_der_eq (r s o : Nat) :
    sigencode_der r s o =
      48 :: (encode_length ((encode_integer r).length +
        (encode_integer s).length) ++
        (encode_integer r ++ encode_integer s)) := by
  simp [sigencode_der, encode_sequence]

theorem encode_integer_length_le (n : Nat) (h : n < 256 ^ 32) :
    (encode_integer n).length ≤ 35 := by
  have hs := bytesOf_length n 32 h (by omega)
  simp only [encode_integer]
  by_cases hh : (bytesOf n).headD 0 ≤ 127
  · rw [if_pos hh, encode_length_short (bytesOf n).length (by omega)]
    simp only [List.length_cons, List.length_append, List.length_singleton,
      List.length_nil]
    omega
  · rw [if_neg hh, encode_length_short ((bytesOf n).length + 1) (by omega)]
    simp only [List.length_cons, List.length_append, List.length_singleton,
      List.length_nil]
    omega

theorem sigdecode_sigencode (r s o o' : Nat)
    (hr : r < 256 ^ 32) (hs : s < 256 ^ 32) :
    sigdecode_der (sigencode_der r s o) o' = some (r, s) := by
  have hA := encode_integer_length_le r hr
  have hB := encode_integer_length_le s hs
  have hr' : (bytesOf r).length < 127 := by
    have := bytesOf_length r 32 hr (by omega); omega
  have hs' : (bytesOf s).length < 127 := by
    have := bytesOf_length s 32 hs (by omega); omega
  have hsum : (encode_integer r ++ encode_integer s).length < 128 := by
    simp only [List.length_append]; omega
  rw [sigencode_der_eq,
    show (encode_integer r).length + (encode_integer s).length =
      (encode_integer r ++ encode_integer s).length by
        simp [List.length_append],
    encode_length_short ((encode_integer r ++ encode_integer s).length) hsum]
  have h2 : remove_integer (encode_integer s) = some (s, []) := by
    have := remove_integer_encode s [] hs'
    simpa using this
  simp only [List.singleton_append, sigdecode_der,
    remove_sequence_short (encode_integer r ++ encode_integer s) hsum]
  simp [remove_integer_encode r (encode_integer s) hr', h2]

end Secp

namespace Secp

/-! ### Signing-level helper lemmas -/

theorem order_lt_pow : order < 256 ^ 32 := by decide

theorem lowS_le (s : Nat) : lowS s ≤ order / 2 := by
  unfold lowS
  split <;> omega

theorem lowS_lt_pow (s : Nat) (h : s < order) : lowS s < 256 ^ 32 := by
  have := order_lt_pow
  unfold lowS
  split <;> omega

theorem signIter_spec (lib : ECDSALib) (d : Nat) (c : List Nat)
    (hc : c.length ≤ 32)
    (hr : (lib.rawSign d c).1 < order)
    (hs : (lib.rawSign d c).2 < order) :
    Ex4.signIter lib d c =
      Except.ok (sigencode_der (lib.rawSign d c).1
        (lowS (lib.rawSign d c).2) order ++ [1], true) := by
  simp only [Ex4.signIter]
  rw [if_neg (by omega)]
  rw [sigdecode_sigencode _ _ _ _ (lt_trans hr order_lt_pow)
    (lt_trans hs order_lt_pow)]
  simp only [lowS]
  by_cases hcond : order / 2 < (lib.rawSign d c).2
  · rw [if_pos hcond, if_pos hcond]
    have : order - (lib.rawSign d c).2 ≤ order / 2 := by omega
    simp [this]
  · rw [if_neg hcond, if_neg hcond]
    have : (lib.rawSign d c).2 ≤ order / 2 := by omega
    simp [this]

theorem sign_spec (lib : ECDSALib) (pk c : List Nat)
    (h1 : pk.length = 32) (h2 : 0 < bytesToNatBE pk)
    (h3 : bytesToNatBE pk < order) (hc : c.length ≤ 32)
    (hr : (lib.rawSign (bytesToNatBE pk) c).1 < order)
    (hs : (lib.rawSign (bytesToNatBE pk) c).2 < order) :
    Ex4.sign lib pk c =
      some (Except.ok (sigencode_der (lib.rawSign (bytesToNatBE pk) c).1
        (lowS (lib.rawSign (bytesToNatBE pk) c).2) order ++ [1])) := by
  simp only [Ex4.sign]
  rw [if_neg (by omega)]
  rw [if_neg (by omega)]
  rw [signIter_spec lib (bytesToNatBE pk) c hc hr hs]
  simp

/-- The two source files contain byte-for-byte identical definitions of
`sign`, so the embeddings coincide definitionally. -/
theorem sign_defs_agree : Ex3.sign = Ex4.sign := rfl

theorem toBytesLE_length : ∀ (len v : Nat), (toBytesLE v len).length = len := by
  intro len
  induction len with
  | zero => intro v; simp [toBytesLE]
  | succ l ih => intro v; simp [toBytesLE, ih]

theorem toBytesBE_length (v len : Nat) : (toBytesBE v len).length = len := by
  simp [toBytesBE, toBytesLE_length]

theorem leToNat_toBytesLE :
    ∀ (len v : Nat), v < 256 ^ len → leToNat (toBytesLE v len) = v := by
  intro len
  induction len with
  | zero =>
    intro v h
    simp only [pow_zero] at h
    simp only [toBytesLE, leToNat]
    omega
  | succ l ih =>
    intro v h
    have hdiv : v / 256 < 256 ^ l := by
      rw [Nat.div_lt_iff_lt_mul (by omega)]
      calc v < 256 ^ (l + 1) := h
      _ = 256 ^ l * 256 := by rw [pow_succ]
    simp only [toBytesLE, leToNat, ih (v / 256) hdiv]
    omega

theorem get_pub_spec (lib : ECDSALib) (pk : List Nat)
    (h1 : pk.length = 32) (h2 : 0 < bytesToNatBE pk)
    (h3 : bytesToNatBE pk < order) :
    Ex4.get_pub_from_priv lib pk =
      Except.ok ((if (lib.pubPoint (bytesToNatBE pk)).2 &&& 1 = 1
          then 3 else 2) ::
        toBytesBE (lib.pubPoint (bytesToNatBE pk)).1 32) := by
  simp only [Ex4.get_pub_from_priv]
  rw [if_neg (by omega)]
  rw [if_neg (by omega)]
  by_cases hp : (lib.pubPoint (bytesToNatBE pk)).2 &&& 1 = 1
  · rw [if_pos hp, if_pos hp]
  · rw [if_neg hp, if_neg hp]

end Secp

namespace Secp

/-! ### Claim theorems -/

/-- Claim C1: for every valid 32-byte private key and 32-byte commitment
(and any conforming curve library, which returns `r` and `s` reduced modulo
the group order), the signature blob returned by `sign`, with its trailing
sighash byte removed, DER-decodes to a pair `(r, s)` with `s ≤ order / 2`
(low-S, BIP62 canonical form). -/
theorem sign_output_low_s (lib : ECDSALib) (pk c : List Nat)
    (h1 : pk.length = 32) (h2 : 0 < bytesToNatBE pk)
    (h3 : bytesToNatBE pk < order) (hc : c.length = 32)
    (hr : (lib.rawSign (bytesToNatBE pk) c).1 < order)
    (hs : (lib.rawSign (bytesToNatBE pk) c).2 < order) :
    ∃ blob r s, Ex4.sign lib pk c = some (Except.ok blob) ∧
      sigdecode_der blob.dropLast order = some (r, s) ∧
      s ≤ order / 2 := by
  refine ⟨_, (lib.rawSign (bytesToNatBE pk) c).1,
    lowS (lib.rawSign (bytesToNatBE pk) c).2,
    sign_spec lib pk c h1 h2 h3 (by omega) hr hs, ?_, lowS_le _⟩
  rw [List.dropLast_concat]
  exact sigdecode_sigencode _ _ _ _ (lt_trans hr order_lt_pow)
    (lowS_lt_pow _ hs)

theorem sign_output_low_s_witness :
    (pk1.length = 32 ∧ 0 < bytesToNatBE pk1 ∧ bytesToNatBE pk1 < order ∧
      c32.length = 32) ∧
    ∃ blob r s, Ex4.sign witLib pk1 c32 = some (Except.ok blob) ∧
      sigdecode_der blob.dropLast order = some (r, s) ∧
      s ≤ order / 2 :=
  ⟨by decide, sign_output_low_s witLib pk1 c32 (by decide) (by decide)
    (by decide) (by decide) (by decide) (by decide)⟩

/-- Claim C2: `sign` is deterministic — for a fixed pair of inputs, two
calls return byte-identical output (two-run equality of the embedded
function, which is pure; the nonce is derived via RFC 6979, abstracted as
the function `ECDSALib.rawSign`). -/
theorem sign_deterministic (lib : ECDSALib) (pk c : List Nat) :
    Ex3.sign lib pk c = Ex3.sign lib pk c := rfl

/-- Claim C3: for every valid input, `get_p2wpkh_witness` returns the byte
sequence `byte(2) || byte(len(sig)) || sig || byte(33) || pubkey`, beginning
with `0x02` and of total length `1 + 1 + len(sig) + 1 + 33`, the length
bytes equal to the actual lengths of the signature blob and the 33-byte
public key. -/
theorem witness_stack_layout (lib : ECDSALib) (pk c : List Nat)
    (h1 : pk.length = 32) (h2 : 0 < bytesToNatBE pk)
    (h3 : bytesToNatBE pk < order) (hc : c.length = 32)
    (hr : (lib.rawSign (bytesToNatBE pk) c).1 < order)
    (hs : (lib.rawSign (bytesToNatBE pk) c).2 < order) :
    ∃ sig pub,
      Ex4.get_p2wpkh_witness lib pk c =
        some (Except.ok
          ([2] ++ ([sig.length] ++ sig) ++ ([pub.length] ++ pub))) ∧
      ([2] ++ ([sig.length] ++ sig) ++ ([pub.length] ++ pub)).headD 0 = 2 ∧
      pub.length = 33 ∧
      ([2] ++ ([sig.length] ++ sig) ++ ([pub.length] ++ pub)).length =
        1 + 1 + sig.length + 1 + 33 := by
  have hsig := sign_spec lib pk c h1 h2 h3 (by omega) hr hs
  have hpub := get_pub_spec lib pk h1 h2 h3
  refine ⟨sigencode_der (lib.rawSign (bytesToNatBE pk) c).1
      (lowS (lib.rawSign (bytesToNatBE pk) c).2) order ++ [1],
    (if (lib.pubPoint (bytesToNatBE pk)).2 &&& 1 = 1 then 3 else 2) ::
      toBytesBE (lib.pubPoint (bytesToNatBE pk)).1 32,
    ?_, by simp, ?_, ?_⟩
  · simp only [Ex4.get_p2wpkh_witness, hsig, hpub]
  · simp [toBytesBE_length]
  · simp [List.length_append, toBytesBE_length]
    omega

theorem witness_stack_layout_witness :
    (pk1.length = 32 ∧ c32.length = 32) ∧
    ∃ sig pub,
      Ex4.get_p2wpkh_witness witLib pk1 c32 =
        some (Except.ok
          ([2] ++ ([sig.length] ++ sig) ++ ([pub.length] ++ pub))) ∧
      ([2] ++ ([sig.length] ++ sig) ++ ([pub.length] ++ pub)).headD 0 = 2 ∧
      pub.length = 33 ∧
      ([2] ++ ([sig.length] ++ sig) ++ ([pub.length] ++ pub)).length =
        1 + 1 + sig.length + 1 + 33 :=
  ⟨by decide, witness_stack_layout witLib pk1 c32 (by decide) (by decide)
    (by decide) (by decide) (by decide) (by decide)⟩

/-- Claim C4, amended: `sign` fails with the invalid-key error when the
private key has wrong length or encodes a scalar that is zero or at least
the group order; a commitment LONGER than 32 bytes fails with the
digest-length error; but a commitment SHORTER than 32 bytes is accepted and
signed (the code performs no exact-length check on the commitment); in every
failure case no partial output is produced (the result is exactly the
error). -/
theorem sign_error_cases (lib : ECDSALib) (pk c : List Nat) :
    (pk.length ≠ 32 →
      Ex4.sign lib pk c = some (Except.error SignError.invalidKey)) ∧
    (pk.length = 32 → (bytesToNatBE pk = 0 ∨ order ≤ bytesToNatBE pk) →
      Ex4.sign lib pk c = some (Except.error SignError.invalidKey)) ∧
    (pk.length = 32 → 0 < bytesToNatBE pk → bytesToNatBE pk < order →
      32 < c.length →
      Ex4.sign lib pk c = some (Except.error SignError.badDigest)) ∧
    (pk.length = 32 → 0 < bytesToNatBE pk → bytesToNatBE pk < order →
      c.length ≤ 32 →
      (lib.rawSign (bytesToNatBE pk) c).1 < order →
      (lib.rawSign (bytesToNatBE pk) c).2 < order →
      ∃ blob, Ex4.sign lib pk c = some (Except.ok blob)) := by
  refine ⟨?_, ?_, ?_, ?_⟩
  · intro h
    simp only [Ex4.sign]
    rw [if_pos h]
  · intro h1 h0
    simp only [Ex4.sign]
    rw [if_neg (by omega), if_pos h0]
  · intro h1 h2 h3 hlen
    simp only [Ex4.sign]
    rw [if_neg (by omega), if_neg (by omega)]
    simp only [Ex4.signIter]
    rw [if_pos hlen]
  · intro h1 h2 h3 hc hr hs
    exact ⟨_, sign_spec lib pk c h1 h2 h3 hc hr hs⟩

theorem sign_error_cases_witness :
    c31.length ≠ 32 ∧
    Ex4.sign witLib c31 c32 = some (Except.error SignError.invalidKey) :=
  ⟨by decide, (sign_error_cases witLib c31 c32).1 (by decide)⟩

/-- Counterexample to claim C4 as stated: with a valid key and a 31-byte
commitment, `sign` does NOT fail with a commitment-length error — it
accepts the short commitment and returns a signature blob.  (Only digests
longer than 32 bytes are rejected, by the library's `sign_digest`.) -/
theorem sign_short_commitment_accepted :
    c31.length = 31 ∧
    Ex4.sign witLib pk1 c31 =
      some (Except.ok [48, 6, 2, 1, 1, 2, 1, 1, 1]) :=
  ⟨rfl, rfl⟩

/-- Claim C5: on every successful run, the last byte of the returned
signature blob is exactly `0x01` (SIGHASH_ALL), appended after the DER
bytes. -/
theorem sign_sighash_final_byte (lib : ECDSALib) (pk c : List Nat)
    (h1 : pk.length = 32) (h2 : 0 < bytesToNatBE pk)
    (h3 : bytesToNatBE pk < order) (hc : c.length = 32)
    (hr : (lib.rawSign (bytesToNatBE pk) c).1 < order)
    (hs : (lib.rawSign (bytesToNatBE pk) c).2 < order) :
    ∃ blob, Ex3.sign lib pk c = some (Except.ok blob) ∧
      blob.getLast? = some 1 := by
  rw [sign_defs_agree]
  exact ⟨_, sign_spec lib pk c h1 h2 h3 (by omega) hr hs,
    List.getLast?_concat _⟩

theorem sign_sighash_final_byte_witness :
    pk1.length = 32 ∧
    ∃ blob, Ex3.sign witLib pk1 c32 = some (Except.ok blob) ∧
      blob.getLast? = some 1 :=
  ⟨by decide, sign_sighash_final_byte witLib pk1 c32 (by decide) (by decide)
    (by decide) (by decide) (by decide) (by decide)⟩

/-- Claim C6: `get_pub_from_priv` is a pure function — repeated calls on the
same valid key return the same output, that output is exactly 33 bytes, and
its first byte is `0x02` or `0x03`. -/
theorem get_pub_from_priv_spec (lib : ECDSALib) (pk : List Nat)
    (h1 : pk.length = 32) (h2 : 0 < bytesToNatBE pk)
    (h3 : bytesToNatBE pk < order) :
    Ex4.get_pub_from_priv lib pk = Ex4.get_pub_from_priv lib pk ∧
    ∃ pub, Ex4.get_pub_from_priv lib pk = Except.ok pub ∧
      pub.length = 33 ∧ (pub.headD 0 = 2 ∨ pub.headD 0 = 3) := by
  refine ⟨rfl, _, get_pub_spec lib pk h1 h2 h3, ?_, ?_⟩
  · simp [toBytesBE_length]
  · by_cases hp : (lib.pubPoint (bytesToNatBE pk)).2 &&& 1 = 1
    · right
      simp only [List.headD_cons]
      rw [if_pos hp]
    · left
      simp only [List.headD_cons]
      rw [if_neg hp]

theorem get_pub_from_priv_spec_witness :
    pk1.length = 32 ∧
    (Ex4.get_pub_from_priv witLib pk1 = Ex4.get_pub_from_priv witLib pk1 ∧
    ∃ pub, Ex4.get_pub_from_priv witLib pk1 = Except.ok pub ∧
      pub.length = 33 ∧ (pub.headD 0 = 2 ∨ pub.headD 0 = 3)) :=
  ⟨by decide, get_pub_from_priv_spec witLib pk1 (by decide) (by decide)
    (by decide)⟩

/-- Claim C7: round-trip — DER-decoding the `sign` output minus its trailing
sighash byte into `(r, s)` and re-encoding that pair as DER yields the same
bytes as the original DER portion. -/
theorem sign_der_round_trip (lib : ECDSALib) (pk c : List Nat)
    (h1 : pk.length = 32) (h2 : 0 < bytesToNatBE pk)
    (h3 : bytesToNatBE pk < order) (hc : c.length = 32)
    (hr : (lib.rawSign (bytesToNatBE pk) c).1 < order)
    (hs : (lib.rawSign (bytesToNatBE pk) c).2 < order) :
    ∃ blob r s, Ex3.sign lib pk c = some (Except.ok blob) ∧
      sigdecode_der blob.dropLast order = some (r, s) ∧
      sigencode_der r s order = blob.dropLast := by
  rw [sign_defs_agree]
  refine ⟨_, (lib.rawSign (bytesToNatBE pk) c).1,
    lowS (lib.rawSign (bytesToNatBE pk) c).2,
    sign_spec lib pk c h1 h2 h3 (by omega) hr hs, ?_, ?_⟩
  · rw [List.dropLast_concat]
    exact sigdecode_sigencode _ _ _ _ (lt_trans hr order_lt_pow)
      (lowS_lt_pow _ hs)
  · rw [List.dropLast_concat]

theorem sign_der_round_trip_witness :
    c32.length = 32 ∧
    ∃ blob r s, Ex3.sign witLib pk1 c32 = some (Except.ok blob) ∧
      sigdecode_der blob.dropLast order = some (r, s) ∧
      sigencode_der r s order = blob.dropLast :=
  ⟨by decide, sign_der_round_trip witLib pk1 c32 (by decide) (by decide)
    (by decide) (by decide) (by decide) (by decide)⟩

/-- Claim C8: the low-S correction loop in `sign` is not a retry — whenever
the loop body runs to completion, the exit condition
`s <= SECP256k1.order // 2` holds already after the first iteration (the
single conditional negation makes `s` low), so `sign` is a terminating,
single-pass deterministic computation. -/
theorem sign_loop_exits_first (lib : ECDSALib) (d : Nat) (c : List Nat)
    (p : List Nat × Bool) (h : Ex4.signIter lib d c = Except.ok p) :
    p.2 = true := by
  simp only [Ex4.signIter] at h
  split at h
  · exact absurd h (by simp)
  · split at h
    · exact absurd h (by simp)
    · simp only [Except.ok.injEq] at h
      subst h
      dsimp only
      simp only [decide_eq_true_eq]
      split <;> omega

theorem sign_loop_exits_first_witness :
    Ex4.signIter witLib 1 [] =
      Except.ok ([48, 6, 2, 1, 1, 2, 1, 1, 1], true) ∧
    (([48, 6, 2, 1, 1, 2, 1, 1, 1], true) : List Nat × Bool).2 = true :=
  ⟨rfl, sign_loop_exits_first witLib 1 []
    ([48, 6, 2, 1, 1, 2, 1, 1, 1], true) rfl⟩

/-- Claim C9: `int_to_little_endian` is a correct fixed-width little-endian
encoding — for every `value < 256 ^ length` the result is exactly `length`
bytes and interpreting them as a little-endian integer recovers `value`. -/
theorem int_to_little_endian_correct (value length : Nat)
    (h : value < 256 ^ length) :
    ∃ bs, Ex3.int_to_little_endian value length = some bs ∧
      bs.length = length ∧ leToNat bs = value := by
  refine ⟨toBytesLE value length, ?_, toBytesLE_length length value,
    leToNat_toBytesLE length value h⟩
  simp [Ex3.int_to_little_endian, h]

theorem int_to_little_endian_correct_witness :
    258 < 256 ^ 4 ∧
    ∃ bs, Ex3.int_to_little_endian 258 4 = some bs ∧
      bs.length = 4 ∧ leToNat bs = 258 :=
  ⟨by decide, int_to_little_endian_correct 258 4 (by decide)⟩

/-- Claim C10: the `sign` function of `ex3_signatures/solution.py` and the
`sign` function of `ex4_witness_data/solution.py` are extensionally equal —
on every input both either fail identically or return identical bytes. -/
theorem ex3_ex4_sign_agree (lib : ECDSALib) (pk c : List Nat) :
    Ex3.sign lib pk c = Ex4.sign lib pk c := rfl

end Secp
